import Mathlib

/-!
# Verification of the smoldot chain-spec codec (`src/chain_spec/structs.rs`)

This file gives a shallow embedding, in Lean 4, of the serde-based
encoder/decoder for chain-specification documents found in
`src/chain_spec/structs.rs`, and proves/refutes the frozen claims about it.

The Rust source defines plain data types and derives (or hand-writes) their
serde `Serialize`/`Deserialize` implementations.  The embedding therefore
models:

* a JSON-like value type (`Json`) standing for the untyped document;
* the hand-written codecs `HexString`, `HashHexString`, `NumberAsString`
  (transcribed from their `serialize`/`deserialize` impls, including the
  external `hex` crate's `encode`/`decode` and Rust's `u64: FromStr`);
* the derived codecs of `ChainType`, `Genesis`, `RawGenesis`,
  `ChildRawStorage`, `ChainSpecParachain` and `ClientSpec`, transcribed from
  the code `serde_derive` generates for the attributes present in the source
  (`rename_all = "camelCase"`, `deny_unknown_fields`, `default`,
  `skip_serializing_if`, `flatten`), and `serde_json`'s mapping of JSON
  values to primitives;
* Rust's `BTreeMap<Vec<u8>, _>` as an association list kept strictly sorted
  by unsigned byte-lexicographic key order.

Machine integers are `Nat` with explicit bounds (`2^8`, `2^32`, `2^64`);
bytes are `Fin 256`; fallible decoding returns `Except DecodeError`.
-/

/-- A byte, i.e. Rust's `u8`. -/
abbrev Byte := Fin 256

/-- A JSON-like document value (what `serde_json` parses the input text into).
Objects keep their fields in source order, which is what the serde map
visitors observe. -/
inductive Json where
  | null : Json
  | bool (b : Bool) : Json
  | num (n : Nat) : Json
  | str (s : String) : Json
  | arr (elems : List Json) : Json
  | obj (fields : List (String × Json)) : Json
deriving Repr

/-- Decode errors, following the taxonomy of the specification (§7).
The serde errors produced by the source map onto these constructors:
`serde::de::Error::custom` for textual-grammar failures becomes
`formatError` with the source's message, `invalid_length` becomes
`lengthError`, `unknown_field` becomes `unknownField`, `missing_field`
becomes `missingField`, `duplicate_field` becomes `duplicateField`,
`invalid_type`/`invalid_value` becomes `typeError`, and the failures of
externally-tagged enum dispatch (no variant key, several keys, or an
unrecognized variant) become `ambiguousVariant`. -/
inductive DecodeError where
  | unknownField (name : String) : DecodeError
  | missingField (name : String) : DecodeError
  | duplicateField (name : String) : DecodeError
  | formatError (msg : String) : DecodeError
  | lengthError (actual expected : Nat) : DecodeError
  | typeError (msg : String) : DecodeError
  | ambiguousVariant : DecodeError
deriving DecidableEq, Repr

/-! ## The `hex` crate

`hex::encode` produces two lowercase hex digits per byte; `hex::decode`
accepts both lowercase and uppercase digits and fails on odd-length input or
non-hex characters. -/

/-- Value of one hex digit character, accepting `0-9`, `a-f` and `A-F`
(as the `hex` crate's decoder does). -/
def hexDigitVal (c : Char) : Option (Fin 16) :=
  if h : 48 ≤ c.toNat ∧ c.toNat ≤ 57 then some ⟨c.toNat - 48, by omega⟩
  else if h : 97 ≤ c.toNat ∧ c.toNat ≤ 102 then some ⟨c.toNat - 87, by omega⟩
  else if h : 65 ≤ c.toNat ∧ c.toNat ≤ 70 then some ⟨c.toNat - 55, by omega⟩
  else none

/-- The lowercase hex digit character for a value `0 ≤ d < 16`
(as produced by `hex::encode`). -/
def hexDigitChar (d : Fin 16) : Char :=
  if d.val < 10 then Char.ofNat (48 + d.val) else Char.ofNat (87 + d.val)

/-- `hex::encode` of a single byte: high nibble then low nibble, lowercase. -/
def encodeByte (b : Byte) : List Char :=
  [hexDigitChar ⟨b.val / 16, by omega⟩, hexDigitChar ⟨b.val % 16, by omega⟩]

/-- `hex::encode`: the character list of the hex encoding of a byte string. -/
def encodeBytesChars (bs : List Byte) : List Char :=
  bs.flatMap encodeByte

/-- `hex::decode` on a character list: consumes digits two at a time;
fails (`none`) on odd length or any non-hex-digit character. -/
def hexDecodeChars : List Char → Option (List Byte)
  | [] => some []
  | [_] => none
  | c₁ :: c₂ :: rest =>
    match hexDigitVal c₁, hexDigitVal c₂, hexDecodeChars rest with
    | some h, some l, some bs => some (⟨16 * h.val + l.val, by omega⟩ :: bs)
    | _, _, _ => none

/-! ## `HexString` (spec name: HexBytes)

Transcribed from `impl Serialize for HexString` and
`impl Deserialize for HexString` (`structs.rs` lines 119–144):
serialization is `format!("0x{}", hex::encode(&self.0))`; deserialization
reads a string, strips the mandatory `0x` prefix and runs `hex::decode`,
failing with the custom message `"hexadecimal string doesn't start with 0x"`
when the prefix is absent. -/

namespace HexString

/-- `HexString::serialize`: the serialized JSON string `0x` + lowercase hex. -/
def serializeStr (bs : List Byte) : String :=
  String.mk ('0' :: 'x' :: encodeBytesChars bs)

/-- `HexString::serialize` as a JSON value. -/
def serialize (bs : List Byte) : Json :=
  .str (serializeStr bs)

/-- `HexString::deserialize` applied to the string contents. -/
def deserializeStr (s : String) : Except DecodeError (List Byte) :=
  match s.data with
  | '0' :: 'x' :: rest =>
    match hexDecodeChars rest with
    | some bs => .ok bs
    | none => .error (.formatError "invalid hex")
  | _ => .error (.formatError "hexadecimal string doesn't start with 0x")

/-- `HexString::deserialize` from a JSON value (`String::deserialize` first,
which fails on any non-string value). -/
def deserialize (j : Json) : Except DecodeError (List Byte) :=
  match j with
  | .str s => deserializeStr s
  | _ => .error (.typeError "invalid type: expected a string")

end HexString

/-! ## `HashHexString` (spec name: FixedHash)

Transcribed from `structs.rs` lines 190–221: serialization identical to
`HexString`; deserialization additionally checks `bytes.len() == 32` and
fails with `invalid_length(bytes.len(), &"a 32 bytes hash")` otherwise.
The 32-byte array `[u8; 32]` is modelled as the subtype of byte lists of
length 32. -/

/-- Rust's `[u8; 32]`. -/
abbrev Hash32 := { l : List Byte // l.length = 32 }

namespace HashHexString

/-- `HashHexString::serialize`: `format!("0x{}", hex::encode(&self.0))`. -/
def serializeStr (h : Hash32) : String :=
  String.mk ('0' :: 'x' :: encodeBytesChars h.val)

/-- `HashHexString::serialize` as a JSON value. -/
def serialize (h : Hash32) : Json :=
  .str (serializeStr h)

/-- `HashHexString::deserialize` applied to the string contents. -/
def deserializeStr (s : String) : Except DecodeError Hash32 :=
  match s.data with
  | '0' :: 'x' :: rest =>
    match hexDecodeChars rest with
    | some bs =>
      if h : bs.length = 32 then .ok ⟨bs, h⟩
      else .error (.lengthError bs.length 32)
    | none => .error (.formatError "invalid hex")
  | _ => .error (.formatError "hash doesn't start with 0x")

/-- `HashHexString::deserialize` from a JSON value. -/
def deserialize (j : Json) : Except DecodeError Hash32 :=
  match j with
  | .str s => deserializeStr s
  | _ => .error (.typeError "invalid type: expected a string")

end HashHexString

/-! ## `NumberAsString` (spec name: FlexibleNumber)

Transcribed from `structs.rs` lines 146–177.  Deserialization reads a
string; when it strips a `0x` prefix the remainder must be valid hex but the
decoded bytes are discarded and the result is `NumberAsString(0)` (the
documented transitional hack); otherwise the string is given to
`str::parse::<u64>()`; when that also fails the error is the custom message
`"block number is neither hexadecimal nor decimal"`. -/

/-- Rust's `u64::from_str`: an optional leading `+` followed by one or more
ASCII decimal digits, rejecting the empty digit string and values outside
`u64` range. -/
def parseU64 (s : String) : Option Nat :=
  let ds := match s.data with
    | '+' :: rest => rest
    | l => l
  if ds = [] then none
  else if ds.all (fun c => 48 ≤ c.toNat ∧ c.toNat ≤ 57) then
    let v := ds.foldl (fun acc c => 10 * acc + (c.toNat - 48)) 0
    if v < 2 ^ 64 then some v else none
  else none

namespace NumberAsString

/-- `NumberAsString::serialize`: the wrapped `u64` serialized as a number. -/
def serialize (n : Nat) : Json :=
  .num n

/-- `NumberAsString::deserialize` applied to the string contents. -/
def deserializeStr (s : String) : Except DecodeError Nat :=
  match s.data with
  | '0' :: 'x' :: rest =>
    match hexDecodeChars rest with
    | some _ => .ok 0
    | none => .error (.formatError "invalid hex")
  | _ =>
    match parseU64 s with
    | some n => .ok n
    | none => .error (.formatError "block number is neither hexadecimal nor decimal")

/-- `NumberAsString::deserialize` from a JSON value. -/
def deserialize (j : Json) : Except DecodeError Nat :=
  match j with
  | .str s => deserializeStr s
  | _ => .error (.typeError "invalid type: expected a string")

end NumberAsString

/-! ## `BTreeMap<Vec<u8>, V>`

`RawGenesis` stores its storage entries in `BTreeMap<HexString, _>` where
`HexString`'s `Ord` is derived from `Vec<u8>`'s, i.e. unsigned
byte-lexicographic order.  The map is modelled as an association list kept
strictly sorted by that order; `btInsert` is `BTreeMap::insert` (replacing
the value on an equal key), and iteration/serialization order is the list
order. -/

/-- Unsigned byte-lexicographic strict order on byte strings
(Rust's `Ord for Vec<u8>`). -/
def bytesLt : List Byte → List Byte → Bool
  | [], [] => false
  | [], _ :: _ => true
  | _ :: _, [] => false
  | a :: as, b :: bs =>
    if a.val < b.val then true
    else if b.val < a.val then false
    else bytesLt as bs

/-- `BTreeMap::insert` on the sorted-association-list model. -/
def btInsert {V : Type} : List (List Byte × V) → List Byte → V → List (List Byte × V)
  | [], k, v => [(k, v)]
  | (k', v') :: rest, k, v =>
    if bytesLt k k' then (k, v) :: (k', v') :: rest
    else if k = k' then (k, v) :: rest
    else (k', v') :: btInsert rest k v

/-- Building a `BTreeMap` by inserting entries in source order, which is what
serde's map visitor does (`while let Some((k, v)) = map.next_entry()?
{ values.insert(k, v); }`); a duplicate key keeps the last value. -/
def btFromList {V : Type} (l : List (List Byte × V)) : List (List Byte × V) :=
  l.foldl (fun m kv => btInsert m kv.1 kv.2) []

/-- Sequential fallible map, as serde visitors process sequences/maps:
the first element error aborts the whole decode. -/
def exMapM {α β : Type} (f : α → Except DecodeError β) :
    List α → Except DecodeError (List β)
  | [] => .ok []
  | a :: as =>
    match f a with
    | .ok b =>
      match exMapM f as with
      | .ok bs => .ok (b :: bs)
      | .error e => .error e
    | .error e => .error e

/-! ## Primitive JSON decoders (the `serde_json` data model)

`serde_json` maps JSON strings to `String`, JSON numbers to the integer
types with a range check, JSON `null` to `()`/`None`, JSON arrays to
sequences and fixed-size tuples, and JSON objects to maps. -/

/-- `String::deserialize`. -/
def jsonStr (j : Json) : Except DecodeError String :=
  match j with
  | .str s => .ok s
  | _ => .error (.typeError "invalid type: expected a string")

/-- Deserialization of an unsigned integer type with exclusive upper
bound `bound` (`u8`/`u32`/`u64` are `bound = 2^8/2^32/2^64`). -/
def jsonNat (bound : Nat) (j : Json) : Except DecodeError Nat :=
  match j with
  | .num n => if n < bound then .ok n else .error (.typeError "integer out of range")
  | _ => .error (.typeError "invalid type: expected an integer")

/-- `Option::<T>::deserialize`: JSON `null` is `None`, anything else is
`Some` of the inner deserialization. -/
def jsonOpt {α : Type} (f : Json → Except DecodeError α) (j : Json) :
    Except DecodeError (Option α) :=
  match j with
  | .null => .ok none
  | _ => (f j).map some

/-- `Vec::<T>::deserialize`: a JSON array, elements in order. -/
def jsonList {α : Type} (f : Json → Except DecodeError α) (j : Json) :
    Except DecodeError (List α) :=
  match j with
  | .arr xs => exMapM f xs
  | _ => .error (.typeError "invalid type: expected an array")

/-- Deserialization of a two-element tuple `(A, B)`: a JSON array of
exactly two elements. -/
def jsonPair {α β : Type} (f : Json → Except DecodeError α)
    (g : Json → Except DecodeError β) (j : Json) :
    Except DecodeError (α × β) :=
  match j with
  | .arr [a, b] =>
    match f a with
    | .ok x =>
      match g b with
      | .ok y => .ok (x, y)
      | .error e => .error e
    | .error e => .error e
  | _ => .error (.typeError "invalid type: expected a tuple of size 2")

/-- `<()>::deserialize`: only JSON `null` is accepted. -/
def jsonUnit (j : Json) : Except DecodeError Unit :=
  match j with
  | .null => .ok ()
  | _ => .error (.typeError "invalid type: expected null")

/-- `Vec::<u8>::deserialize`: a JSON array of integers `< 256`. -/
def jsonByteVec (j : Json) : Except DecodeError (List Byte) :=
  match j with
  | .arr xs =>
    (exMapM (jsonNat 256) xs).map (fun ns => ns.attach.map
      (fun n => ⟨n.val % 256, Nat.mod_lt _ (by omega)⟩))
  | _ => .error (.typeError "invalid type: expected an array")

/-! ## `ChainType`

`structs.rs` lines 80–92: a derived externally-tagged enum with three unit
variants and one newtype variant (`Custom(String)`), with a `Default` impl
returning `Live`.  serde's externally-tagged encoding represents a unit
variant as its name string (or a single-key object with `null` payload) and
a newtype variant as a single-key object. -/

inductive ChainType where
  | Development : ChainType
  | Local : ChainType
  | Live : ChainType
  | Custom (name : String) : ChainType
deriving DecidableEq, Repr

namespace ChainType

/-- `impl Default for ChainType` (`structs.rs` lines 88–92). -/
def default : ChainType := .Live

/-- Derived `ChainType::serialize` (externally tagged, no `rename_all`). -/
def serialize (c : ChainType) : Json :=
  match c with
  | .Development => .str "Development"
  | .Local => .str "Local"
  | .Live => .str "Live"
  | .Custom s => .obj [("Custom", .str s)]

/-- Derived `ChainType::deserialize` (externally tagged): a variant-name
string selects a unit variant; a single-key object selects a variant with
its payload; anything else (several keys, no key, unknown variant name,
non-unit payload for a unit variant) fails. -/
def deserialize (j : Json) : Except DecodeError ChainType :=
  match j with
  | .str "Development" => .ok .Development
  | .str "Local" => .ok .Local
  | .str "Live" => .ok .Live
  | .obj [(k, v)] =>
    if k = "Development" then (jsonUnit v).map (fun _ => .Development)
    else if k = "Local" then (jsonUnit v).map (fun _ => .Local)
    else if k = "Live" then (jsonUnit v).map (fun _ => .Live)
    else if k = "Custom" then (jsonStr v).map .Custom
    else .error .ambiguousVariant
  | _ => .error .ambiguousVariant

end ChainType

/-! ## `ChildRawStorage`

`structs.rs` lines 179–185: a derived struct, `rename_all = "camelCase"`,
`deny_unknown_fields`; fields `child_info: Vec<u8>` and `child_type: u32`,
both required.  The derived visitor walks the object's entries in order,
rejects unknown and duplicate keys, and reports the first missing field. -/

structure ChildRawStorage where
  child_info : List Byte
  child_type : Nat
deriving DecidableEq, Repr

namespace ChildRawStorage

/-- One step of the derived visitor for `ChildRawStorage`. -/
def stepField (st : Option (List Byte) × Option Nat) (k : String) (v : Json) :
    Except DecodeError (Option (List Byte) × Option Nat) :=
  if k = "childInfo" then
    if st.1.isSome then .error (.duplicateField "childInfo")
    else (jsonByteVec v).map (fun bs => (some bs, st.2))
  else if k = "childType" then
    if st.2.isSome then .error (.duplicateField "childType")
    else (jsonNat (2 ^ 32) v).map (fun n => (st.1, some n))
  else .error (.unknownField k)

/-- Derived `ChildRawStorage::deserialize`. -/
def deserialize (j : Json) : Except DecodeError ChildRawStorage :=
  match j with
  | .obj entries =>
    match entries.foldlM (fun st kv => stepField st kv.1 kv.2) (none, none) with
    | .ok (some ci, some ct) => .ok ⟨ci, ct⟩
    | .ok (none, _) => .error (.missingField "childInfo")
    | .ok (_, none) => .error (.missingField "childType")
    | .error e => .error e
  | _ => .error (.typeError "invalid type: expected an object")

/-- Derived `ChildRawStorage::serialize` (camelCase keys, declaration
order). -/
def serialize (c : ChildRawStorage) : Json :=
  .obj [("childInfo", .arr (c.child_info.map (fun b => .num b.val))),
        ("childType", .num c.child_type)]

end ChildRawStorage

/-! ## `RawGenesis`

`structs.rs` lines 102–108: a derived struct, `rename_all = "camelCase"`,
`deny_unknown_fields`; fields `top: BTreeMap<HexString, HexString>` and
`children_default: BTreeMap<HexString, ChildRawStorage>`, both required.
A JSON object decodes into a `BTreeMap` by deserializing each key with
`HexString::deserialize` (serde map keys are strings) and each value with
the value type's deserializer, inserting in source order. -/

structure RawGenesis where
  top : List (List Byte × List Byte)
  children_default : List (List Byte × ChildRawStorage)
deriving Repr

namespace RawGenesis

/-- Decoding the entries of a JSON object into `(key bytes, value)` pairs:
keys through `HexString::deserialize` on the key string, values through the
given decoder, in source order. -/
def mapPairsDecode {V : Type} (f : Json → Except DecodeError V)
    (entries : List (String × Json)) :
    Except DecodeError (List (List Byte × V)) :=
  exMapM (fun kv =>
    match HexString.deserializeStr kv.1 with
    | .ok kb =>
      match f kv.2 with
      | .ok v => .ok (kb, v)
      | .error e => .error e
    | .error e => .error e) entries

/-- `BTreeMap::<HexString, V>::deserialize` from a JSON value. -/
def btMapDecode {V : Type} (f : Json → Except DecodeError V) (j : Json) :
    Except DecodeError (List (List Byte × V)) :=
  match j with
  | .obj entries => (mapPairsDecode f entries).map btFromList
  | _ => .error (.typeError "invalid type: expected an object")

/-- One step of the derived visitor for `RawGenesis`. -/
def stepField
    (st : Option (List (List Byte × List Byte)) × Option (List (List Byte × ChildRawStorage)))
    (k : String) (v : Json) :
    Except DecodeError
      (Option (List (List Byte × List Byte)) × Option (List (List Byte × ChildRawStorage))) :=
  if k = "top" then
    if st.1.isSome then .error (.duplicateField "top")
    else (btMapDecode HexString.deserialize v).map (fun m => (some m, st.2))
  else if k = "childrenDefault" then
    if st.2.isSome then .error (.duplicateField "childrenDefault")
    else (btMapDecode ChildRawStorage.deserialize v).map (fun m => (st.1, some m))
  else .error (.unknownField k)

/-- Derived `RawGenesis::deserialize`. -/
def deserialize (j : Json) : Except DecodeError RawGenesis :=
  match j with
  | .obj entries =>
    match entries.foldlM (fun st kv => stepField st kv.1 kv.2) (none, none) with
    | .ok (some t, some c) => .ok ⟨t, c⟩
    | .ok (none, _) => .error (.missingField "top")
    | .ok (_, none) => .error (.missingField "childrenDefault")
    | .error e => .error e
  | _ => .error (.typeError "invalid type: expected an object")

/-- Serialization of a `BTreeMap<HexString, V>`: entries in map (ascending
key) order, keys through `HexString::serialize`. -/
def btMapSerialize {V : Type} (f : V → Json) (m : List (List Byte × V)) : Json :=
  .obj (m.map (fun kv => (HexString.serializeStr kv.1, f kv.2)))

/-- Derived `RawGenesis::serialize` (camelCase keys, declaration order). -/
def serialize (r : RawGenesis) : Json :=
  .obj [("top", btMapSerialize HexString.serialize r.top),
        ("childrenDefault", btMapSerialize ChildRawStorage.serialize r.children_default)]

end RawGenesis

/-! ## `Genesis`

`structs.rs` lines 94–100: a derived externally-tagged enum,
`rename_all = "camelCase"`, with the two newtype variants `Raw(RawGenesis)`
and `StateRootHash(HashHexString)`.  The externally-tagged representation
is a single-key object `{"raw": …}` or `{"stateRootHash": …}`; an object
with zero or several keys, a non-object, or an unrecognized variant key all
fail. -/

inductive Genesis where
  | Raw (r : RawGenesis) : Genesis
  | StateRootHash (h : Hash32) : Genesis
deriving Repr

namespace Genesis

/-- Derived `Genesis::deserialize`. -/
def deserialize (j : Json) : Except DecodeError Genesis :=
  match j with
  | .obj [(k, v)] =>
    if k = "raw" then (RawGenesis.deserialize v).map .Raw
    else if k = "stateRootHash" then (HashHexString.deserialize v).map .StateRootHash
    else .error .ambiguousVariant
  | _ => .error .ambiguousVariant

/-- Derived `Genesis::serialize`. -/
def serialize (g : Genesis) : Json :=
  match g with
  | .Raw r => .obj [("raw", RawGenesis.serialize r)]
  | .StateRootHash h => .obj [("stateRootHash", HashHexString.serialize h)]

end Genesis

/-! ## `ChainSpecParachain` and `ClientSpec`

`structs.rs` lines 30–78.  `ClientSpec` is a derived struct with
`rename_all = "camelCase"`, `deny_unknown_fields`, and a
`#[serde(flatten)]`-ed field `parachain: Option<ChainSpecParachain>`.

The presence of the flattened field changes what `serde_derive` generates:
the field-name enum gains a catch-all variant that *buffers* every key
outside the struct's own field list (`serde_derive`'s
`deserialize_generated_identifier` emits this catch-all whenever the
container has a flattened field, taking precedence over
`deny_unknown_fields`, which therefore has no effect at runtime — the
combination is documented as unsupported by serde).  After the object's own
fields are read, the buffered entries are offered to the flattened field
through a `FlatMapDeserializer`:

* `Option<T>` in flatten position is deserialized with
  `Visitor::__private_visit_untagged_option`, which yields `Some` when `T`
  deserializes from the buffer and swallows *any* error into `None`;
* the `FlatStructAccess` used for the inner struct only yields the buffered
  keys in the inner struct's field list (`relay_chain`, `para_id` — note
  `ChainSpecParachain` has no `rename_all`, so the wire names are
  snake_case), leaving other buffered keys untouched;
* buffered entries left unconsumed at the end are silently dropped.

`consensus_engine: ()` (`default, skip_serializing`) is accepted on the
wire (requiring `null`) and never re-serialized; it carries no data, so the
model struct does not store it.  `LightSyncState` lives in
`light_sync_state.rs`, outside the analysed source; the spec treats it as an
opaque external collaborator, so its payload is modelled as a passthrough
JSON value (see `lightSyncStateDecode`). -/

/-- `ChainSpecParachain` (`structs.rs` lines 73–78).  `para_id` is a `u32`. -/
structure ChainSpecParachain where
  relay_chain : String
  para_id : Nat
deriving DecidableEq, Repr

/-- `ClientSpec` (`structs.rs` lines 30–71).  `code_substitutes` is a
`HashMap<NumberAsString, HexString>` (modelled as an association list with
last-wins insertion), `bad_blocks` a `HashSet<HashHexString>` (modelled as a
duplicate-free list in first-insertion order). -/
structure ClientSpec where
  name : String
  id : String
  chain_type : ChainType
  code_substitutes : List (Nat × List Byte)
  boot_nodes : List String
  telemetry_endpoints : Option (List (String × Nat))
  protocol_id : Option String
  fork_id : Option String
  properties : Option Json
  fork_blocks : Option (List (Nat × Hash32))
  bad_blocks : Option (List Hash32)
  genesis : Genesis
  light_sync_state : Option Json
  parachain : Option ChainSpecParachain
deriving Repr

/-- Modelled from the spec: `LightSyncState` (from `light_sync_state.rs`,
not part of the analysed source) is "opaque to this core, passed through as
a typed field"; its payload is therefore modelled as an opaque passthrough
JSON value. -/
def lightSyncStateDecode (j : Json) : Except DecodeError Json :=
  .ok j

/-- `Box<serde_json::value::RawValue>`: an opaque preserved JSON span. -/
def rawValueDecode (j : Json) : Except DecodeError Json :=
  .ok j

/-- `HashMap::insert` on the association-list model of
`code_substitutes`: replaces the value on an existing key, appends
otherwise. -/
def hmInsert : List (Nat × List Byte) → Nat → List Byte → List (Nat × List Byte)
  | [], k, v => [(k, v)]
  | (k', v') :: rest, k, v =>
    if k = k' then (k, v) :: rest else (k', v') :: hmInsert rest k v

/-- `HashMap::<NumberAsString, HexString>::deserialize`: a JSON object whose
keys go through `NumberAsString::deserialize` and values through
`HexString::deserialize`, inserted in source order. -/
def codeSubstitutesDecode (j : Json) : Except DecodeError (List (Nat × List Byte)) :=
  match j with
  | .obj entries =>
    (exMapM (fun kv =>
      match NumberAsString.deserializeStr kv.1 with
      | .ok k =>
        match HexString.deserialize kv.2 with
        | .ok v => .ok (k, v)
        | .error e => .error e
      | .error e => .error e) entries).map
      (fun l => l.foldl (fun m kv => hmInsert m kv.1 kv.2) [])
  | _ => .error (.typeError "invalid type: expected an object")

/-- `HashSet::insert` on the duplicate-free-list model of `bad_blocks`. -/
def hsInsert (s : List Hash32) (h : Hash32) : List Hash32 :=
  if h ∈ s then s else s ++ [h]

/-- `HashSet::<HashHexString>::deserialize`: a JSON array of hash strings,
collapsing duplicates. -/
def badBlocksDecode (j : Json) : Except DecodeError (List Hash32) :=
  match j with
  | .arr xs => (exMapM HashHexString.deserialize xs).map (fun l => l.foldl hsInsert [])
  | _ => .error (.typeError "invalid type: expected an array")

/-- The partial state of the derived `ClientSpec` visitor: one `Option` per
own field (doubled for `Option`-typed fields so that a present-but-null
field is distinguished from an absent one, as the generated code does), and
the buffer of entries whose keys matched no own field, kept for the
flattened `parachain` field. -/
structure DecState where
  name : Option String := none
  id : Option String := none
  chainType : Option ChainType := none
  codeSubstitutes : Option (List (Nat × List Byte)) := none
  bootNodes : Option (List String) := none
  telemetryEndpoints : Option (Option (List (String × Nat))) := none
  protocolId : Option (Option String) := none
  forkId : Option (Option String) := none
  properties : Option (Option Json) := none
  forkBlocks : Option (Option (List (Nat × Hash32))) := none
  badBlocks : Option (Option (List Hash32)) := none
  consensusEngine : Option Unit := none
  genesis : Option Genesis := none
  lightSyncState : Option (Option Json) := none
  collect : List (String × Json) := []
deriving Repr

namespace ClientSpec

/-- One step of the derived `ClientSpec` visitor: dispatch on the
camelCase wire name, check for duplicates, deserialize the value; keys
outside the field list are buffered for the flattened field (the catch-all
that the flattened field forces, which is why `deny_unknown_fields` never
fires). -/
def stepField (st : DecState) (k : String) (v : Json) : Except DecodeError DecState :=
  if k = "name" then
    if st.name.isSome then .error (.duplicateField "name")
    else (jsonStr v).map (fun x => { st with name := some x })
  else if k = "id" then
    if st.id.isSome then .error (.duplicateField "id")
    else (jsonStr v).map (fun x => { st with id := some x })
  else if k = "chainType" then
    if st.chainType.isSome then .error (.duplicateField "chainType")
    else (ChainType.deserialize v).map (fun x => { st with chainType := some x })
  else if k = "codeSubstitutes" then
    if st.codeSubstitutes.isSome then .error (.duplicateField "codeSubstitutes")
    else (codeSubstitutesDecode v).map (fun x => { st with codeSubstitutes := some x })
  else if k = "bootNodes" then
    if st.bootNodes.isSome then .error (.duplicateField "bootNodes")
    else (jsonList jsonStr v).map (fun x => { st with bootNodes := some x })
  else if k = "telemetryEndpoints" then
    if st.telemetryEndpoints.isSome then .error (.duplicateField "telemetryEndpoints")
    else (jsonOpt (jsonList (jsonPair jsonStr (jsonNat (2 ^ 8)))) v).map
      (fun x => { st with telemetryEndpoints := some x })
  else if k = "protocolId" then
    if st.protocolId.isSome then .error (.duplicateField "protocolId")
    else (jsonOpt jsonStr v).map (fun x => { st with protocolId := some x })
  else if k = "forkId" then
    if st.forkId.isSome then .error (.duplicateField "forkId")
    else (jsonOpt jsonStr v).map (fun x => { st with forkId := some x })
  else if k = "properties" then
    if st.properties.isSome then .error (.duplicateField "properties")
    else (jsonOpt rawValueDecode v).map (fun x => { st with properties := some x })
  else if k = "forkBlocks" then
    if st.forkBlocks.isSome then .error (.duplicateField "forkBlocks")
    else (jsonOpt (jsonList (jsonPair (jsonNat (2 ^ 64)) HashHexString.deserialize)) v).map
      (fun x => { st with forkBlocks := some x })
  else if k = "badBlocks" then
    if st.badBlocks.isSome then .error (.duplicateField "badBlocks")
    else (jsonOpt badBlocksDecode v).map (fun x => { st with badBlocks := some x })
  else if k = "consensusEngine" then
    if st.consensusEngine.isSome then .error (.duplicateField "consensusEngine")
    else (jsonUnit v).map (fun x => { st with consensusEngine := some x })
  else if k = "genesis" then
    if st.genesis.isSome then .error (.duplicateField "genesis")
    else (Genesis.deserialize v).map (fun x => { st with genesis := some x })
  else if k = "lightSyncState" then
    if st.lightSyncState.isSome then .error (.duplicateField "lightSyncState")
    else (jsonOpt lightSyncStateDecode v).map (fun x => { st with lightSyncState := some x })
  else
    .ok { st with collect := st.collect ++ [(k, v)] }

/-- The visitor's loop over the object's entries, in source order. -/
def decodeFields : List (String × Json) → DecState → Except DecodeError DecState
  | [], st => .ok st
  | (k, v) :: rest, st =>
    match stepField st k v with
    | .ok st' => decodeFields rest st'
    | .error e => .error e

/-- `ChainSpecParachain`'s derived visitor run over the flatten buffer
through serde's `FlatStructAccess`: only the keys `relay_chain` and
`para_id` are yielded to it (other buffered keys are skipped), duplicates
are rejected, both fields are required. -/
def parachainFromBuffer (buf : List (String × Json)) :
    Except DecodeError ChainSpecParachain :=
  match buf.foldlM (fun (st : Option String × Option Nat) kv =>
    if kv.1 = "relay_chain" then
      if st.1.isSome then .error (.duplicateField "relay_chain")
      else (jsonStr kv.2).map (fun x => (some x, st.2))
    else if kv.1 = "para_id" then
      if st.2.isSome then .error (.duplicateField "para_id")
      else (jsonNat (2 ^ 32) kv.2).map (fun x => (st.1, some x))
    else .ok st) (none, none) with
  | .ok (some r, some p) => .ok ⟨r, p⟩
  | .ok (none, _) => .error (.missingField "relay_chain")
  | .ok (_, none) => .error (.missingField "para_id")
  | .error e => .error e

/-- The final assembly of the visitor: required own fields must be present
(`missing_field` otherwise, in declaration order), `chain_type` and
`code_substitutes` fall back to their defaults, `Option` fields fall back
to `None`, and the flattened `Option<ChainSpecParachain>` is produced by
`__private_visit_untagged_option`, which turns any failure on the buffer
into `None`. -/
def build (st : DecState) : Except DecodeError ClientSpec :=
  match st.name with
  | none => .error (.missingField "name")
  | some nm =>
    match st.id with
    | none => .error (.missingField "id")
    | some idv =>
      match st.bootNodes with
      | none => .error (.missingField "bootNodes")
      | some bn =>
        match st.genesis with
        | none => .error (.missingField "genesis")
        | some g =>
          .ok { name := nm
                id := idv
                chain_type := st.chainType.getD ChainType.default
                code_substitutes := st.codeSubstitutes.getD []
                boot_nodes := bn
                telemetry_endpoints := st.telemetryEndpoints.join
                protocol_id := st.protocolId.join
                fork_id := st.forkId.join
                properties := st.properties.join
                fork_blocks := st.forkBlocks.join
                bad_blocks := st.badBlocks.join
                genesis := g
                light_sync_state := st.lightSyncState.join
                parachain := (parachainFromBuffer st.collect).toOption }

/-- Derived `ClientSpec::deserialize`: the whole-document decode. -/
def deserialize (j : Json) : Except DecodeError ClientSpec :=
  match j with
  | .obj entries =>
    match decodeFields entries {} with
    | .ok st => build st
    | .error e => .error e
  | _ => .error (.typeError "invalid type: expected an object")

/-- Derived `ClientSpec::serialize`: camelCase keys in declaration order;
`fork_id` is skipped when `None` (`skip_serializing_if = "Option::is_none"`),
`consensus_engine` is always skipped (`skip_serializing`), the flattened
`parachain` contributes its own keys at the top level when present and
nothing when absent; every other `Option` field serializes `None` as
`null`. -/
def serialize (c : ClientSpec) : Json :=
  .obj (
    [("name", .str c.name),
     ("id", .str c.id),
     ("chainType", ChainType.serialize c.chain_type),
     ("codeSubstitutes", .obj (c.code_substitutes.map
       (fun kv => (toString kv.1, HexString.serialize kv.2)))),
     ("bootNodes", .arr (c.boot_nodes.map .str)),
     ("telemetryEndpoints", (c.telemetry_endpoints.map
       (fun l => Json.arr (l.map (fun p => .arr [.str p.1, .num p.2])))).getD .null),
     ("protocolId", (c.protocol_id.map Json.str).getD .null)]
    ++ (match c.fork_id with
        | none => []
        | some f => [("forkId", Json.str f)])
    ++ [("properties", c.properties.getD .null),
        ("forkBlocks", (c.fork_blocks.map
          (fun l => Json.arr (l.map
            (fun p => .arr [.num p.1, HashHexString.serialize p.2])))).getD .null),
        ("badBlocks", (c.bad_blocks.map
          (fun l => Json.arr (l.map HashHexString.serialize))).getD .null),
        ("genesis", Genesis.serialize c.genesis),
        ("lightSyncState", c.light_sync_state.getD .null)]
    ++ (match c.parachain with
        | none => []
        | some p => [("relay_chain", Json.str p.relay_chain),
                     ("para_id", Json.num p.para_id)]))

end ClientSpec

/-! ## Lemmas about the hex primitives -/

theorem hexDigitVal_hexDigitChar (d : Fin 16) : hexDigitVal (hexDigitChar d) = some d := by
  revert d; decide

theorem hexDecodeChars_encodeBytesChars (bs : List Byte) :
    hexDecodeChars (encodeBytesChars bs) = some bs := by
  induction bs with
  | nil => rfl
  | cons b rest ih =>
    show hexDecodeChars (hexDigitChar _ :: hexDigitChar _ :: encodeBytesChars rest) = _
    rw [hexDecodeChars, hexDigitVal_hexDigitChar, hexDigitVal_hexDigitChar, ih]
    simp [Fin.ext_iff, Nat.div_add_mod]

/-- Lowercasing of the six uppercase hex digit letters; on strings of hex
digits this coincides with ASCII lowercasing. -/
def lowerHexChar (c : Char) : Char :=
  if c = 'A' then 'a' else if c = 'B' then 'b' else if c = 'C' then 'c'
  else if c = 'D' then 'd' else if c = 'E' then 'e' else if c = 'F' then 'f'
  else c

theorem hexDigitVal_lowerHexChar (c : Char) :
    hexDigitVal (lowerHexChar c) = hexDigitVal c := by
  by_cases hA : c = 'A'; · subst hA; decide
  by_cases hB : c = 'B'; · subst hB; decide
  by_cases hC : c = 'C'; · subst hC; decide
  by_cases hD : c = 'D'; · subst hD; decide
  by_cases hE : c = 'E'; · subst hE; decide
  by_cases hF : c = 'F'; · subst hF; decide
  simp [lowerHexChar, hA, hB, hC, hD, hE, hF]

/-- Two-at-a-time induction principle matching `hexDecodeChars`. -/
theorem twoStepInduction {P : List Char → Prop} (h0 : P []) (h1 : ∀ c, P [c])
    (h2 : ∀ a b l, P l → P (a :: b :: l)) : ∀ l, P l
  | [] => h0
  | [c] => h1 c
  | a :: b :: l => h2 a b l (twoStepInduction h0 h1 h2 l)

theorem hexDecodeChars_map_lowerHexChar (cs : List Char) :
    hexDecodeChars (cs.map lowerHexChar) = hexDecodeChars cs := by
  induction cs using twoStepInduction with
  | h0 => rfl
  | h1 c => rfl
  | h2 a b l ih =>
    show hexDecodeChars (lowerHexChar a :: lowerHexChar b :: l.map lowerHexChar) = _
    rw [hexDecodeChars, hexDecodeChars, hexDigitVal_lowerHexChar,
      hexDigitVal_lowerHexChar, ih]

theorem hexDecodeChars_isSome (cs : List Char) (h₁ : cs.length % 2 = 0)
    (h₂ : ∀ c ∈ cs, (hexDigitVal c).isSome = true) :
    ∃ bs, hexDecodeChars cs = some bs := by
  induction cs using twoStepInduction with
  | h0 => exact ⟨[], rfl⟩
  | h1 c => simp at h₁
  | h2 a b l ih =>
    obtain ⟨da, hda⟩ := Option.isSome_iff_exists.mp (h₂ a (by simp))
    obtain ⟨db, hdb⟩ := Option.isSome_iff_exists.mp (h₂ b (by simp))
    obtain ⟨bs, hbs⟩ := ih (by simp at h₁; omega) (fun c hc => h₂ c (by simp [hc]))
    exact ⟨_, by rw [hexDecodeChars, hda, hdb, hbs]⟩

/-! ## Claims C3, C9, C10 — the `HexString` codec -/

/-- C3: for every byte sequence `B`, `HexString` (HexBytes) decode of
`encode(B)` — which is exactly `0x` followed by the lowercase hex digits of
`B`, two digits per byte — yields `B` back. -/
theorem hexString_decode_encode_roundtrip (bs : List Byte) :
    HexString.deserialize (HexString.serialize bs) = .ok bs
      ∧ HexString.serializeStr bs = String.mk ('0' :: 'x' :: encodeBytesChars bs) := by
  refine ⟨?_, rfl⟩
  show HexString.deserializeStr (HexString.serializeStr bs) = .ok bs
  rw [HexString.serializeStr]
  show (match hexDecodeChars (encodeBytesChars bs) with
    | some bs => Except.ok bs
    | none => Except.error (DecodeError.formatError "invalid hex")) = Except.ok bs
  rw [hexDecodeChars_encodeBytesChars]

/-- C9: `HexString` (HexBytes) decode of `"0x"` succeeds with the empty byte
sequence, and decode of any string not starting with the `0x` prefix fails
with the `FormatError` naming the missing prefix. -/
theorem hexString_empty_and_missing_0x :
    HexString.deserializeStr "0x" = .ok []
      ∧ ∀ s : String, s.data.take 2 ≠ ['0', 'x'] →
        HexString.deserializeStr s =
          .error (.formatError "hexadecimal string doesn't start with 0x") := by
  refine ⟨rfl, ?_⟩
  intro s h
  obtain ⟨l⟩ := s
  unfold HexString.deserializeStr
  split
  · next rest heq =>
    exact absurd (by rw [show l = '0' :: 'x' :: rest from heq]; rfl) h
  · rfl

theorem hexString_empty_and_missing_0x_witness :
    HexString.deserializeStr "deadbeef" =
      .error (.formatError "hexadecimal string doesn't start with 0x") :=
  hexString_empty_and_missing_0x.2 "deadbeef" (by decide)

/-- C10: `HexString` (HexBytes) decode accepts uppercase hex digits: for
every even-length sequence of hex digit characters (any mix of cases),
decoding `0x` followed by those characters succeeds and yields the same
bytes as decoding the lowercased form. -/
theorem hexString_uppercase_accepted (cs : List Char) (h₁ : cs.length % 2 = 0)
    (h₂ : ∀ c ∈ cs, (hexDigitVal c).isSome = true) :
    ∃ bs, HexString.deserializeStr (String.mk ('0' :: 'x' :: cs)) = .ok bs
      ∧ HexString.deserializeStr (String.mk ('0' :: 'x' :: cs.map lowerHexChar)) = .ok bs := by
  obtain ⟨bs, hbs⟩ := hexDecodeChars_isSome cs h₁ h₂
  refine ⟨bs, ?_, ?_⟩
  · show (match hexDecodeChars cs with
      | some bs => Except.ok bs
      | none => Except.error (DecodeError.formatError "invalid hex")) = Except.ok bs
    rw [hbs]
  · show (match hexDecodeChars (cs.map lowerHexChar) with
      | some bs => Except.ok bs
      | none => Except.error (DecodeError.formatError "invalid hex")) = Except.ok bs
    rw [hexDecodeChars_map_lowerHexChar, hbs]

theorem hexString_uppercase_accepted_witness :
    ∃ bs, HexString.deserializeStr "0xDeAd" = .ok bs
      ∧ HexString.deserializeStr "0xdead" = .ok bs :=
  hexString_uppercase_accepted ['D', 'e', 'A', 'd'] (by decide) (by decide)

/-! ## Claim C2 — the `NumberAsString` codec -/

/-- C2: `NumberAsString` (FlexibleNumber) decode maps a string without the
`0x` prefix that parses as an unsigned decimal to its numeric value; maps
any `0x`-prefixed string whose remainder is valid hex to `0` regardless of
the payload; and fails with a `FormatError` on every input that is neither
valid `0x`-prefixed hex nor a parseable unsigned decimal. -/
theorem numberAsString_decode_spec :
    (∀ (s : String) (n : Nat), s.data.take 2 ≠ ['0', 'x'] → parseU64 s = some n →
      NumberAsString.deserializeStr s = .ok n)
    ∧ (∀ rest : List Char, (hexDecodeChars rest).isSome = true →
      NumberAsString.deserializeStr (String.mk ('0' :: 'x' :: rest)) = .ok 0)
    ∧ (∀ s : String, (¬∃ rest, s.data = '0' :: 'x' :: rest ∧ (hexDecodeChars rest).isSome = true) →
      parseU64 s = none → ∃ m, NumberAsString.deserializeStr s = .error (.formatError m)) := by
  refine ⟨?_, ?_, ?_⟩
  · intro s n h hp
    obtain ⟨l⟩ := s
    unfold NumberAsString.deserializeStr
    split
    · next rest heq =>
      exact absurd (by rw [show l = '0' :: 'x' :: rest from heq]; rfl) h
    · rw [hp]
  · intro rest h
    obtain ⟨bs, hbs⟩ := Option.isSome_iff_exists.mp h
    show (match hexDecodeChars rest with
      | some _ => Except.ok 0
      | none => Except.error (DecodeError.formatError "invalid hex")) = Except.ok 0
    rw [hbs]
  · intro s h hp
    obtain ⟨l⟩ := s
    unfold NumberAsString.deserializeStr
    split
    · next rest heq =>
      have : hexDecodeChars rest = none := by
        cases hd : hexDecodeChars rest with
        | none => rfl
        | some bs => exact absurd ⟨rest, heq, by rw [hd]; rfl⟩ h
      rw [this]
      exact ⟨_, rfl⟩
    · rw [hp]
      exact ⟨_, rfl⟩

theorem numberAsString_decode_spec_witness :
    NumberAsString.deserializeStr "12345" = .ok 12345
      ∧ NumberAsString.deserializeStr "0x2a" = .ok 0
      ∧ ∃ m, NumberAsString.deserializeStr "abc" = .error (.formatError m) :=
  ⟨numberAsString_decode_spec.1 "12345" 12345 (by decide) (by decide),
   numberAsString_decode_spec.2.1 ['2', 'a'] (by decide),
   numberAsString_decode_spec.2.2 "abc"
     (by rintro ⟨rest, h, -⟩; simp [show "abc".data = ['a', 'b', 'c'] from rfl] at h)
     (by decide)⟩

/-! ## Claim C4 — the `HashHexString` codec -/

/-- C4: for every 32-byte sequence `H`, `HashHexString` (FixedHash) decode
of `encode(H)` yields `H`; and for every `0x`-prefixed valid-hex input whose
decoded byte count is not 32, decode fails with a `LengthError` carrying the
actual decoded length and the expectation of 32 bytes — never truncating or
padding. -/
theorem hashHexString_roundtrip_and_length :
    (∀ H : Hash32, HashHexString.deserialize (HashHexString.serialize H) = .ok H)
    ∧ (∀ (rest : List Char) (bs : List Byte), hexDecodeChars rest = some bs →
      bs.length ≠ 32 →
      HashHexString.deserializeStr (String.mk ('0' :: 'x' :: rest)) =
        .error (.lengthError bs.length 32)) := by
  constructor
  · intro H
    show HashHexString.deserializeStr (HashHexString.serializeStr H) = .ok H
    rw [HashHexString.serializeStr]
    show (match hexDecodeChars (encodeBytesChars H.val) with
      | some bs =>
        if h : bs.length = 32 then Except.ok (⟨bs, h⟩ : Hash32)
        else Except.error (DecodeError.lengthError bs.length 32)
      | none => Except.error (DecodeError.formatError "invalid hex")) = Except.ok H
    rw [hexDecodeChars_encodeBytesChars]
    simp [H.prop]
  · intro rest bs hbs hlen
    show (match hexDecodeChars rest with
      | some bs =>
        if h : bs.length = 32 then Except.ok (⟨bs, h⟩ : Hash32)
        else Except.error (DecodeError.lengthError bs.length 32)
      | none => Except.error (DecodeError.formatError "invalid hex")) =
        Except.error (DecodeError.lengthError bs.length 32)
    rw [hbs]
    simp [hlen]

theorem hashHexString_roundtrip_and_length_witness :
    HashHexString.deserialize
        (HashHexString.serialize ⟨List.replicate 32 (0 : Byte), by simp⟩) =
      .ok ⟨List.replicate 32 (0 : Byte), by simp⟩
    ∧ HashHexString.deserializeStr "0xab" = .error (.lengthError 1 32) :=
  ⟨hashHexString_roundtrip_and_length.1 ⟨List.replicate 32 (0 : Byte), by simp⟩,
   hashHexString_roundtrip_and_length.2 ['a', 'b'] [(171 : Byte)] (by decide) (by decide)⟩

/-! ## Lemmas about the `BTreeMap` model -/

/-- The key order of `BTreeMap<HexString, V>` on the model's entries. -/
def RLt {V : Type} (p q : List Byte × V) : Prop := bytesLt p.1 q.1 = true

theorem bytesLt_irrefl (a : List Byte) : bytesLt a a = false := by
  induction a with
  | nil => rfl
  | cons x xs ih => simp [bytesLt, ih]

theorem bytesLt_asymm : ∀ {a b : List Byte}, bytesLt a b = true → bytesLt b a = false := by
  intro a
  induction a with
  | nil =>
    intro b h
    cases b with
    | nil => simpa [bytesLt] using h
    | cons y ys => rfl
  | cons x xs ih =>
    intro b h
    cases b with
    | nil => simp [bytesLt] at h
    | cons y ys =>
      simp only [bytesLt] at h ⊢
      rcases Nat.lt_trichotomy x.val y.val with h1 | h1 | h1
      · simp [h1, Nat.lt_asymm h1]
      · simp only [h1, Nat.lt_irrefl, if_false] at h ⊢
        exact ih h
      · simp [h1, Nat.lt_asymm h1] at h


theorem bytesLt_cons_iff (x y : Byte) (xs ys : List Byte) :
    bytesLt (x :: xs) (y :: ys) = true ↔
      x.val < y.val ∨ (x = y ∧ bytesLt xs ys = true) := by
  simp only [bytesLt]
  by_cases h1 : x.val < y.val
  · simp [h1]
  · by_cases h2 : y.val < x.val
    · simp [h1, h2, Fin.ext_iff]
      omega
    · have hxy : x = y := Fin.ext (by omega)
      simp [h1, h2, hxy]

theorem bytesLt_trans : ∀ {a b c : List Byte},
    bytesLt a b = true → bytesLt b c = true → bytesLt a c = true := by
  intro a
  induction a with
  | nil =>
    intro b c hab hbc
    cases b with
    | nil => simp [bytesLt] at hab
    | cons y ys =>
      cases c with
      | nil => simp [bytesLt] at hbc
      | cons z zs => rfl
  | cons x xs ih =>
    intro b c hab hbc
    cases b with
    | nil => simp [bytesLt] at hab
    | cons y ys =>
      cases c with
      | nil => simp [bytesLt] at hbc
      | cons z zs =>
        rw [bytesLt_cons_iff] at hab hbc ⊢
        rcases hab with hab | ⟨hab, hab'⟩ <;> rcases hbc with hbc | ⟨hbc, hbc'⟩
        · exact .inl (Nat.lt_trans hab hbc)
        · exact .inl (hbc ▸ hab)
        · exact .inl (hab ▸ hbc)
        · exact .inr ⟨hab.trans hbc, ih hab' hbc'⟩

theorem bytesLt_total : ∀ (a b : List Byte), a ≠ b →
    bytesLt a b = true ∨ bytesLt b a = true := by
  intro a
  induction a with
  | nil =>
    intro b h
    cases b with
    | nil => exact absurd rfl h
    | cons y ys => exact .inl rfl
  | cons x xs ih =>
    intro b h
    cases b with
    | nil => exact .inr rfl
    | cons y ys =>
      rw [bytesLt_cons_iff, bytesLt_cons_iff]
      by_cases hxy : x = y
      · subst hxy
        rcases ih ys (by simpa using h) with h' | h'
        · exact .inl (.inr ⟨rfl, h'⟩)
        · exact .inr (.inr ⟨rfl, h'⟩)
      · rcases Nat.lt_or_ge x.val y.val with h' | h'
        · exact .inl (.inl h')
        · have : y.val < x.val := by
            rcases Nat.eq_or_lt_of_le h' with h'' | h''
            · exact absurd (Fin.ext h''.symm) hxy
            · exact h''
          exact .inr (.inl this)

theorem mem_btInsert {V : Type} {p : List Byte × V} :
    ∀ {m : List (List Byte × V)} {k : List Byte} {v : V},
    p ∈ btInsert m k v → p = (k, v) ∨ p ∈ m := by
  intro m
  induction m with
  | nil =>
    intro k v h
    simpa [btInsert] using h
  | cons q rest ih =>
    intro k v h
    obtain ⟨qk, qv⟩ := q
    simp only [btInsert] at h
    by_cases h1 : bytesLt k qk = true
    · rw [if_pos h1] at h
      rcases List.mem_cons.mp h with h | h
      · exact .inl h
      · exact .inr h
    · rw [if_neg h1] at h
      by_cases h2 : k = qk
      · rw [if_pos h2] at h
        rcases List.mem_cons.mp h with h | h
        · exact .inl h
        · exact .inr (List.mem_cons_of_mem _ h)
      · rw [if_neg h2] at h
        rcases List.mem_cons.mp h with h | h
        · exact .inr (h ▸ List.mem_cons_self _ _)
        · rcases ih h with h | h
          · exact .inl h
          · exact .inr (List.mem_cons_of_mem _ h)

theorem btInsert_sorted {V : Type} {m : List (List Byte × V)} (k : List Byte) (v : V)
    (h : m.Pairwise RLt) : (btInsert m k v).Pairwise RLt := by
  induction m with
  | nil => simp [btInsert, List.Pairwise]
  | cons q rest ih =>
    obtain ⟨qk, qv⟩ := q
    rcases List.pairwise_cons.mp h with ⟨hq, hrest⟩
    simp only [btInsert]
    by_cases h1 : bytesLt k qk = true
    · rw [if_pos h1]
      refine List.pairwise_cons.mpr ⟨?_, h⟩
      intro p hp
      rcases List.mem_cons.mp hp with hp | hp
      · exact hp ▸ h1
      · exact bytesLt_trans h1 (hq p hp)
    · rw [if_neg h1]
      by_cases h2 : k = qk
      · rw [if_pos h2]
        subst h2
        exact List.pairwise_cons.mpr ⟨hq, hrest⟩
      · rw [if_neg h2]
        refine List.pairwise_cons.mpr ⟨?_, ih hrest⟩
        intro p hp
        rcases mem_btInsert hp with hp | hp
        · subst hp
          rcases bytesLt_total k qk h2 with hl | hl
          · exact absurd hl h1
          · exact hl
        · exact hq p hp

theorem btInsert_perm_of_not_mem {V : Type} {k : List Byte} {v : V} :
    ∀ {m : List (List Byte × V)}, k ∉ m.map Prod.fst →
    (btInsert m k v).Perm ((k, v) :: m) := by
  intro m
  induction m with
  | nil => intro _; exact List.Perm.refl _
  | cons q rest ih =>
    intro hk
    obtain ⟨qk, qv⟩ := q
    simp only [List.map_cons, List.mem_cons] at hk
    push_neg at hk
    simp only [btInsert]
    by_cases h1 : bytesLt k qk = true
    · rw [if_pos h1]
    · rw [if_neg h1, if_neg hk.1]
      exact ((ih hk.2).cons (qk, qv)).trans (List.Perm.swap _ _ _)

theorem btFromList_aux_perm {V : Type} :
    ∀ (l acc : List (List Byte × V)), ((acc ++ l).map Prod.fst).Nodup →
    (l.foldl (fun m kv => btInsert m kv.1 kv.2) acc).Perm (acc ++ l) := by
  intro l
  induction l with
  | nil =>
    intro acc _
    simp
  | cons x rest ih =>
    intro acc hnd
    have hnd' : ((acc ++ [x]) ++ rest).map Prod.fst |>.Nodup := by
      simpa using hnd
    have hx : x.1 ∉ acc.map Prod.fst := by
      simp only [List.map_append, List.nodup_append] at hnd
      intro hmem
      exact hnd.2.2 hmem (by simp)
    have hins : (btInsert acc x.1 x.2).Perm ((x.1, x.2) :: acc) :=
      btInsert_perm_of_not_mem hx
    have hnd'' : ((btInsert acc x.1 x.2 ++ rest).map Prod.fst).Nodup := by
      have hperm : (btInsert acc x.1 x.2 ++ rest).Perm ((acc ++ [x]) ++ rest) := by
        refine List.Perm.append_right rest (hins.trans ?_)
        simpa using (@List.perm_middle _ x acc []).symm
      exact ((hperm.map Prod.fst).nodup_iff).mpr hnd'
    have step := ih (btInsert acc x.1 x.2) hnd''
    refine (step.trans ?_)
    refine (List.Perm.append_right rest hins).trans ?_
    simpa using (@List.perm_middle _ x acc rest).symm

theorem btFromList_perm {V : Type} (l : List (List Byte × V))
    (hnd : (l.map Prod.fst).Nodup) : (btFromList l).Perm l := by
  simpa [btFromList] using btFromList_aux_perm l [] (by simpa using hnd)

theorem btFromList_sorted {V : Type} (l : List (List Byte × V)) :
    (btFromList l).Pairwise RLt := by
  have key : ∀ (l acc : List (List Byte × V)), acc.Pairwise RLt →
      (l.foldl (fun m kv => btInsert m kv.1 kv.2) acc).Pairwise RLt := by
    intro l
    induction l with
    | nil => intro acc h; exact h
    | cons x rest ih =>
      intro acc h
      exact ih _ (btInsert_sorted x.1 x.2 h)
  exact key l [] List.Pairwise.nil

theorem sorted_keys_nodup {V : Type} {m : List (List Byte × V)}
    (h : m.Pairwise RLt) : (m.map Prod.fst).Nodup := by
  rw [List.Nodup, List.pairwise_map]
  refine h.imp ?_
  intro p q hpq heq
  rw [RLt, heq] at hpq
  rw [bytesLt_irrefl] at hpq
  exact Bool.false_ne_true hpq

theorem sorted_eq_of_perm {V : Type} {m₁ m₂ : List (List Byte × V)}
    (hp : m₁.Perm m₂) (h₁ : m₁.Pairwise RLt) (h₂ : m₂.Pairwise RLt) : m₁ = m₂ := by
  haveI : IsAntisymm (List Byte × V) RLt := ⟨by
    intro a b hab hba
    rw [RLt, bytesLt_asymm hab] at hba
    exact absurd hba Bool.false_ne_true⟩
  exact List.eq_of_perm_of_sorted hp h₁ h₂

theorem btFromList_eq_self_of_sorted {V : Type} {m : List (List Byte × V)}
    (h : m.Pairwise RLt) : btFromList m = m :=
  sorted_eq_of_perm (btFromList_perm m (sorted_keys_nodup h)) (btFromList_sorted m) h

/-! ## Lemmas about `exMapM` -/

theorem exMapM_ok_iff {α β : Type} (f : α → Except DecodeError β) :
    ∀ (l : List α) (r : List β),
    exMapM f l = .ok r ↔ List.Forall₂ (fun a b => f a = .ok b) l r := by
  intro l
  induction l with
  | nil =>
    intro r
    constructor
    · intro h
      cases h
      exact List.Forall₂.nil
    · intro h
      cases h
      rfl
  | cons a as ih =>
    intro r
    constructor
    · intro h
      rw [exMapM] at h
      cases hfa : f a with
      | error e => rw [hfa] at h; cases h
      | ok b =>
        rw [hfa] at h
        cases hrest : exMapM f as with
        | error e => rw [hrest] at h; cases h
        | ok bs =>
          rw [hrest] at h
          cases h
          exact List.Forall₂.cons hfa ((ih bs).mp hrest)
    · intro h
      cases h with
      | cons hfa hrest =>
        rw [exMapM, hfa, (ih _).mpr hrest]

theorem exMapM_isOk_of_forall {α β : Type} (f : α → Except DecodeError β) :
    ∀ (l : List α), (∀ a ∈ l, ∃ b, f a = .ok b) → ∃ r, exMapM f l = .ok r := by
  intro l
  induction l with
  | nil => intro _; exact ⟨[], rfl⟩
  | cons a as ih =>
    intro h
    obtain ⟨b, hb⟩ := h a (by simp)
    obtain ⟨bs, hbs⟩ := ih (fun x hx => h x (by simp [hx]))
    exact ⟨b :: bs, by rw [exMapM, hb, hbs]⟩

theorem exMapM_forall_of_ok {α β : Type} {f : α → Except DecodeError β} :
    ∀ {l : List α} {r : List β}, exMapM f l = .ok r →
    ∀ a ∈ l, ∃ b, f a = .ok b := by
  intro l
  induction l with
  | nil => intro r _ a ha; cases ha
  | cons x xs ih =>
    intro r h a ha
    rw [exMapM] at h
    cases hfx : f x with
    | error e => rw [hfx] at h; cases h
    | ok b =>
      rw [hfx] at h
      cases hrest : exMapM f xs with
      | error e => rw [hrest] at h; cases h
      | ok bs =>
        rcases List.mem_cons.mp ha with ha | ha
        · exact ⟨b, ha ▸ hfx⟩
        · exact ih hrest a ha

theorem exMapM_perm {α β : Type} {f : α → Except DecodeError β} :
    ∀ {l₁ l₂ : List α} {r₁ r₂ : List β}, l₁.Perm l₂ →
    exMapM f l₁ = .ok r₁ → exMapM f l₂ = .ok r₂ → r₁.Perm r₂ := by
  intro l₁ l₂ r₁ r₂ hp
  induction hp generalizing r₁ r₂ with
  | nil =>
    intro h₁ h₂
    cases h₁; cases h₂
    exact List.Perm.refl _
  | cons x htail ih =>
    intro h₁ h₂
    rcases (exMapM_ok_iff f _ _).mp h₁ with _ | ⟨hfx, hrest₁⟩
    rcases (exMapM_ok_iff f _ _).mp h₂ with _ | ⟨hfx', hrest₂⟩
    rw [hfx] at hfx'
    cases hfx'
    exact (ih ((exMapM_ok_iff f _ _).mpr hrest₁)
      ((exMapM_ok_iff f _ _).mpr hrest₂)).cons _
  | swap x y l =>
    intro h₁ h₂
    rcases (exMapM_ok_iff f _ _).mp h₁ with _ | ⟨hfy, _ | ⟨hfx, hrest₁⟩⟩
    rcases (exMapM_ok_iff f _ _).mp h₂ with _ | ⟨hfx', _ | ⟨hfy', hrest₂⟩⟩
    rw [hfx] at hfx'
    rw [hfy] at hfy'
    cases hfx'
    cases hfy'
    have hdet := (exMapM_ok_iff f l _).mpr hrest₁
    have hdet' := (exMapM_ok_iff f l _).mpr hrest₂
    rw [hdet] at hdet'
    cases hdet'
    exact List.Perm.swap _ _ _
  | trans hp₁ hp₂ ih₁ ih₂ =>
    intro h₁ h₂
    obtain ⟨rm, hrm⟩ := exMapM_isOk_of_forall f _
      (fun a ha => exMapM_forall_of_ok h₁ a (hp₁.mem_iff.mpr ha))
    exact (ih₁ h₁ hrm).trans (ih₂ hrm h₂)

/-- Round trip of the `HexString` codec at the string level (helper shared
by several claims). -/
theorem hexString_rt (bs : List Byte) :
    HexString.deserializeStr (HexString.serializeStr bs) = .ok bs := by
  rw [HexString.serializeStr]
  show (match hexDecodeChars (encodeBytesChars bs) with
    | some bs => Except.ok bs
    | none => Except.error (DecodeError.formatError "invalid hex")) = Except.ok bs
  rw [hexDecodeChars_encodeBytesChars]

theorem mapPairsDecode_serialized (m : List (List Byte × List Byte)) :
    RawGenesis.mapPairsDecode HexString.deserialize
      (m.map (fun kv => (HexString.serializeStr kv.1, HexString.serialize kv.2))) = .ok m := by
  induction m with
  | nil => rfl
  | cons kv rest ih =>
    obtain ⟨k, v⟩ := kv
    rw [RawGenesis.mapPairsDecode] at ih ⊢
    rw [List.map_cons, exMapM]
    have hk := hexString_rt k
    have hv : HexString.deserialize (HexString.serialize v) = .ok v := hexString_rt v
    simp only [hk, hv, ih]

/-! ## Claim C5 — ordering of raw genesis storage -/

/-- C5: decoding the `top` raw-storage object of a `RawGenesis` re-orders
the entries into ascending unsigned byte-lexicographic order of the decoded
key byte sequences, independently of the order in which the keys appeared in
the source document (two permuted documents decode to the same map), and
this ordering is stable across decode/encode (re-decoding the re-encoded map
yields the same map). -/
theorem rawGenesis_top_ordering
    (e₁ e₂ : List (String × Json)) (ps₁ ps₂ : List (List Byte × List Byte))
    (h₁ : RawGenesis.mapPairsDecode HexString.deserialize e₁ = .ok ps₁)
    (h₂ : RawGenesis.mapPairsDecode HexString.deserialize e₂ = .ok ps₂)
    (hp : e₁.Perm e₂) (hnd : (ps₁.map Prod.fst).Nodup) :
    RawGenesis.btMapDecode HexString.deserialize (.obj e₁) =
      RawGenesis.btMapDecode HexString.deserialize (.obj e₂)
    ∧ (btFromList ps₁).Pairwise RLt
    ∧ RawGenesis.btMapDecode HexString.deserialize
        (RawGenesis.btMapSerialize HexString.serialize (btFromList ps₁)) =
      .ok (btFromList ps₁) := by
  have hperm : ps₁.Perm ps₂ := exMapM_perm hp h₁ h₂
  have hnd₂ : (ps₂.map Prod.fst).Nodup := ((hperm.map Prod.fst).nodup_iff).mp hnd
  refine ⟨?_, btFromList_sorted ps₁, ?_⟩
  · show (RawGenesis.mapPairsDecode HexString.deserialize e₁).map btFromList =
      (RawGenesis.mapPairsDecode HexString.deserialize e₂).map btFromList
    rw [h₁, h₂]
    have heq : btFromList ps₁ = btFromList ps₂ :=
      sorted_eq_of_perm
        (((btFromList_perm ps₁ hnd).trans hperm).trans (btFromList_perm ps₂ hnd₂).symm)
        (btFromList_sorted ps₁) (btFromList_sorted ps₂)
    show Except.ok (btFromList ps₁) = Except.ok (btFromList ps₂)
    rw [heq]
  · show (RawGenesis.mapPairsDecode HexString.deserialize
      ((btFromList ps₁).map (fun kv =>
        (HexString.serializeStr kv.1, HexString.serialize kv.2)))).map btFromList =
      .ok (btFromList ps₁)
    rw [mapPairsDecode_serialized]
    show Except.ok (btFromList (btFromList ps₁)) = Except.ok (btFromList ps₁)
    rw [btFromList_eq_self_of_sorted (btFromList_sorted ps₁)]

theorem rawGenesis_top_ordering_witness :
    RawGenesis.btMapDecode HexString.deserialize
        (.obj [("0xff", .str "0x01"), ("0x00", .str "0x02")]) =
      RawGenesis.btMapDecode HexString.deserialize
        (.obj [("0x00", .str "0x02"), ("0xff", .str "0x01")])
    ∧ (btFromList [([(255 : Byte)], [(1 : Byte)]), ([(0 : Byte)], [(2 : Byte)])]).Pairwise RLt
    ∧ RawGenesis.btMapDecode HexString.deserialize
        (RawGenesis.btMapSerialize HexString.serialize
          (btFromList [([(255 : Byte)], [(1 : Byte)]), ([(0 : Byte)], [(2 : Byte)])])) =
      .ok (btFromList [([(255 : Byte)], [(1 : Byte)]), ([(0 : Byte)], [(2 : Byte)])]) :=
  rawGenesis_top_ordering
    [("0xff", .str "0x01"), ("0x00", .str "0x02")]
    [("0x00", .str "0x02"), ("0xff", .str "0x01")]
    [([255], [1]), ([0], [2])] [([0], [2]), ([255], [1])]
    (by rfl) (by rfl) (List.Perm.swap _ _ _) (by decide)

/-! ## Lemmas about the `ClientSpec` visitor -/

theorem except_map_ok {α β : Type} {f : α → β} {e : Except DecodeError α} {b : β}
    (h : e.map f = .ok b) : ∃ a, e = .ok a ∧ b = f a := by
  cases e with
  | ok a => exact ⟨a, rfl, by cases h; rfl⟩
  | error e => cases h

theorem except_map_isOk {α β : Type} (f : α → β) (e : Except DecodeError α) :
    (e.map f).isOk = e.isOk := by
  cases e <;> rfl

/-- A visitor step on a key other than `forkId`/`chainType` leaves the
`forkId`/`chainType` components of the state unchanged. -/
theorem stepField_preserve {st : DecState} {k : String} {v : Json} {st' : DecState}
    (h : ClientSpec.stepField st k v = .ok st') :
    (k ≠ "forkId" → st'.forkId = st.forkId)
      ∧ (k ≠ "chainType" → st'.chainType = st.chainType) := by
  unfold ClientSpec.stepField at h
  by_cases h1 : k = "name"
  · rw [if_pos h1] at h
    split at h
    · cases h
    · obtain ⟨x, hx, rfl⟩ := except_map_ok h
      refine ⟨fun hk => ?_, fun hk => ?_⟩ <;> first | rfl | exact absurd (by assumption) hk
  rw [if_neg h1] at h
  by_cases h2 : k = "id"
  · rw [if_pos h2] at h
    split at h
    · cases h
    · obtain ⟨x, hx, rfl⟩ := except_map_ok h
      refine ⟨fun hk => ?_, fun hk => ?_⟩ <;> first | rfl | exact absurd (by assumption) hk
  rw [if_neg h2] at h
  by_cases h3 : k = "chainType"
  · rw [if_pos h3] at h
    split at h
    · cases h
    · obtain ⟨x, hx, rfl⟩ := except_map_ok h
      refine ⟨fun hk => ?_, fun hk => ?_⟩ <;> first | rfl | exact absurd (by assumption) hk
  rw [if_neg h3] at h
  by_cases h4 : k = "codeSubstitutes"
  · rw [if_pos h4] at h
    split at h
    · cases h
    · obtain ⟨x, hx, rfl⟩ := except_map_ok h
      refine ⟨fun hk => ?_, fun hk => ?_⟩ <;> first | rfl | exact absurd (by assumption) hk
  rw [if_neg h4] at h
  by_cases h5 : k = "bootNodes"
  · rw [if_pos h5] at h
    split at h
    · cases h
    · obtain ⟨x, hx, rfl⟩ := except_map_ok h
      refine ⟨fun hk => ?_, fun hk => ?_⟩ <;> first | rfl | exact absurd (by assumption) hk
  rw [if_neg h5] at h
  by_cases h6 : k = "telemetryEndpoints"
  · rw [if_pos h6] at h
    split at h
    · cases h
    · obtain ⟨x, hx, rfl⟩ := except_map_ok h
      refine ⟨fun hk => ?_, fun hk => ?_⟩ <;> first | rfl | exact absurd (by assumption) hk
  rw [if_neg h6] at h
  by_cases h7 : k = "protocolId"
  · rw [if_pos h7] at h
    split at h
    · cases h
    · obtain ⟨x, hx, rfl⟩ := except_map_ok h
      refine ⟨fun hk => ?_, fun hk => ?_⟩ <;> first | rfl | exact absurd (by assumption) hk
  rw [if_neg h7] at h
  by_cases h8 : k = "forkId"
  · rw [if_pos h8] at h
    split at h
    · cases h
    · obtain ⟨x, hx, rfl⟩ := except_map_ok h
      refine ⟨fun hk => ?_, fun hk => ?_⟩ <;> first | rfl | exact absurd (by assumption) hk
  rw [if_neg h8] at h
  by_cases h9 : k = "properties"
  · rw [if_pos h9] at h
    split at h
    · cases h
    · obtain ⟨x, hx, rfl⟩ := except_map_ok h
      refine ⟨fun hk => ?_, fun hk => ?_⟩ <;> first | rfl | exact absurd (by assumption) hk
  rw [if_neg h9] at h
  by_cases h10 : k = "forkBlocks"
  · rw [if_pos h10] at h
    split at h
    · cases h
    · obtain ⟨x, hx, rfl⟩ := except_map_ok h
      refine ⟨fun hk => ?_, fun hk => ?_⟩ <;> first | rfl | exact absurd (by assumption) hk
  rw [if_neg h10] at h
  by_cases h11 : k = "badBlocks"
  · rw [if_pos h11] at h
    split at h
    · cases h
    · obtain ⟨x, hx, rfl⟩ := except_map_ok h
      refine ⟨fun hk => ?_, fun hk => ?_⟩ <;> first | rfl | exact absurd (by assumption) hk
  rw [if_neg h11] at h
  by_cases h12 : k = "consensusEngine"
  · rw [if_pos h12] at h
    split at h
    · cases h
    · obtain ⟨x, hx, rfl⟩ := except_map_ok h
      refine ⟨fun hk => ?_, fun hk => ?_⟩ <;> first | rfl | exact absurd (by assumption) hk
  rw [if_neg h12] at h
  by_cases h13 : k = "genesis"
  · rw [if_pos h13] at h
    split at h
    · cases h
    · obtain ⟨x, hx, rfl⟩ := except_map_ok h
      refine ⟨fun hk => ?_, fun hk => ?_⟩ <;> first | rfl | exact absurd (by assumption) hk
  rw [if_neg h13] at h
  by_cases h14 : k = "lightSyncState"
  · rw [if_pos h14] at h
    split at h
    · cases h
    · obtain ⟨x, hx, rfl⟩ := except_map_ok h
      refine ⟨fun hk => ?_, fun hk => ?_⟩ <;> first | rfl | exact absurd (by assumption) hk
  rw [if_neg h14] at h
  cases h
  exact ⟨fun _ => rfl, fun _ => rfl⟩

/-- A visitor step on the key `forkId` requires the field to be unset
(duplicate error otherwise) and stores the decoded optional string. -/
theorem stepField_forkId_set {st : DecState} {v : Json} {st' : DecState}
    (h : ClientSpec.stepField st "forkId" v = .ok st') :
    st.forkId = none ∧ ∃ o, jsonOpt jsonStr v = .ok o ∧ st'.forkId = some o := by
  unfold ClientSpec.stepField at h
  rw [if_neg (by decide), if_neg (by decide), if_neg (by decide), if_neg (by decide),
    if_neg (by decide), if_neg (by decide), if_neg (by decide), if_pos rfl] at h
  split at h
  · cases h
  · next hdup =>
    obtain ⟨x, hx, rfl⟩ := except_map_ok h
    exact ⟨Option.not_isSome_iff_eq_none.mp hdup, x, hx, rfl⟩

/-- Once the `forkId` component is set, a successful run of the remaining
entries cannot change it (a second `forkId` key is a duplicate error). -/
theorem decodeFields_forkId_some :
    ∀ {l : List (String × Json)} {st st' : DecState} {o : Option String},
    st.forkId = some o → ClientSpec.decodeFields l st = .ok st' → st'.forkId = some o := by
  intro l
  induction l with
  | nil =>
    intro st st' o hs h
    cases h
    exact hs
  | cons kv rest ih =>
    intro st st' o hs h
    obtain ⟨k, v⟩ := kv
    rw [ClientSpec.decodeFields] at h
    cases hstep : ClientSpec.stepField st k v with
    | error e => rw [hstep] at h; cases h
    | ok st₂ =>
      rw [hstep] at h
      by_cases hk : k = "forkId"
      · subst hk
        obtain ⟨hnone, -⟩ := stepField_forkId_set hstep
        rw [hnone] at hs
        cases hs
      · exact ih (by rw [(stepField_preserve hstep).1 hk]; exact hs) h

/-- If no entry is keyed `forkId`, a successful run of the visitor leaves
the `forkId` component unchanged. -/
theorem decodeFields_forkId_none :
    ∀ {l : List (String × Json)} {st st' : DecState},
    ClientSpec.decodeFields l st = .ok st' → l.lookup "forkId" = none →
    st'.forkId = st.forkId := by
  intro l
  induction l with
  | nil =>
    intro st st' h _
    cases h
    rfl
  | cons kv rest ih =>
    intro st st' h hlk
    obtain ⟨k, v⟩ := kv
    by_cases hk : k = "forkId"
    · subst hk
      simp [List.lookup] at hlk
    · have hbk : ("forkId" == k) = false := beq_eq_false_iff_ne.mpr (fun he => hk he.symm)
      have hlk' : rest.lookup "forkId" = none := by
        simpa only [List.lookup, hbk] using hlk
      rw [ClientSpec.decodeFields] at h
      cases hstep : ClientSpec.stepField st k v with
      | error e => rw [hstep] at h; cases h
      | ok st₂ =>
        rw [hstep] at h
        rw [ih h hlk', (stepField_preserve hstep).1 hk]

/-- If the first entry keyed `forkId` carries the value `w`, a successful
run of the visitor (starting with the field unset) decodes `w` as an
optional string and stores it. -/
theorem decodeFields_forkId_lookup :
    ∀ {l : List (String × Json)} {st st' : DecState},
    ClientSpec.decodeFields l st = .ok st' → st.forkId = none →
    ∀ {w : Json}, l.lookup "forkId" = some w →
    ∃ o, jsonOpt jsonStr w = .ok o ∧ st'.forkId = some o := by
  intro l
  induction l with
  | nil =>
    intro st st' _ _ w hlk
    cases hlk
  | cons kv rest ih =>
    intro st st' h hnone w hlk
    obtain ⟨k, v⟩ := kv
    rw [ClientSpec.decodeFields] at h
    cases hstep : ClientSpec.stepField st k v with
    | error e => rw [hstep] at h; cases h
    | ok st₂ =>
      rw [hstep] at h
      by_cases hk : k = "forkId"
      · subst hk
        have hw : v = w := by simpa [List.lookup] using hlk
        subst hw
        obtain ⟨-, o, ho, hset⟩ := stepField_forkId_set hstep
        exact ⟨o, ho, decodeFields_forkId_some hset h⟩
      · have hbk : ("forkId" == k) = false := beq_eq_false_iff_ne.mpr (fun he => hk he.symm)
        have hlk' : rest.lookup "forkId" = some w := by
          simpa only [List.lookup, hbk] using hlk
        exact ih h (by rw [(stepField_preserve hstep).1 hk]; exact hnone) hlk'

/-- If no entry is keyed `chainType`, a successful run of the visitor
leaves the `chainType` component unchanged. -/
theorem decodeFields_chainType_none :
    ∀ {l : List (String × Json)} {st st' : DecState},
    ClientSpec.decodeFields l st = .ok st' → l.lookup "chainType" = none →
    st'.chainType = st.chainType := by
  intro l
  induction l with
  | nil =>
    intro st st' h _
    cases h
    rfl
  | cons kv rest ih =>
    intro st st' h hlk
    obtain ⟨k, v⟩ := kv
    by_cases hk : k = "chainType"
    · subst hk
      simp [List.lookup] at hlk
    · have hbk : ("chainType" == k) = false := beq_eq_false_iff_ne.mpr (fun he => hk he.symm)
      have hlk' : rest.lookup "chainType" = none := by
        simpa only [List.lookup, hbk] using hlk
      rw [ClientSpec.decodeFields] at h
      cases hstep : ClientSpec.stepField st k v with
      | error e => rw [hstep] at h; cases h
      | ok st₂ =>
        rw [hstep] at h
        rw [ih h hlk', (stepField_preserve hstep).2 hk]

/-- The final assembly maps the visitor state's `forkId`/`chainType`
components to the model fields (with the `Live` default). -/
theorem build_fields {st : DecState} {c : ClientSpec}
    (h : ClientSpec.build st = .ok c) :
    c.fork_id = st.forkId.join ∧ c.chain_type = st.chainType.getD ChainType.default := by
  unfold ClientSpec.build at h
  repeat' (split at h)
  all_goals (cases h; try exact ⟨rfl, rfl⟩)

/-- A successful whole-document decode factors through the visitor run and
the final assembly. -/
theorem deserialize_obj {entries : List (String × Json)} {c : ClientSpec}
    (h : ClientSpec.deserialize (.obj entries) = .ok c) :
    ∃ st, ClientSpec.decodeFields entries {} = .ok st ∧ ClientSpec.build st = .ok c := by
  have h' : (match ClientSpec.decodeFields entries ({} : DecState) with
    | .ok st => ClientSpec.build st
    | .error e => Except.error e) = .ok c := h
  cases hd : ClientSpec.decodeFields entries {} with
  | ok st => rw [hd] at h'; exact ⟨st, rfl, h'⟩
  | error e => rw [hd] at h'; cases h'

/-- Key lookup in a serialized JSON object. -/
def jsonLookup (j : Json) (k : String) : Option Json :=
  match j with
  | .obj l => l.lookup k
  | _ => none

/-- The re-encoded document carries a `forkId` key exactly when the model's
`fork_id` is present, with its string value. -/
theorem serialize_forkId_lookup (c : ClientSpec) :
    jsonLookup (ClientSpec.serialize c) "forkId" = c.fork_id.map Json.str := by
  obtain ⟨nm, idv, ct, cs, bn, te, pi, fi, pr, fb, bb, g, ls, pc⟩ := c
  cases fi <;> cases pc <;> rfl

/-! ## Claims C7, C8, C1 — whole-document decode/encode -/

/-- C7: for every document that decodes successfully and omits the `forkId`
field, the model's fork id is absent and the re-encoding emits no `forkId`
key (not even as `null`); for every such document carrying
`"forkId": "abc"`, the value is preserved unchanged through
decode → encode. -/
theorem clientSpec_forkId_spec (entries : List (String × Json)) (c : ClientSpec)
    (h : ClientSpec.deserialize (.obj entries) = .ok c) :
    (entries.lookup "forkId" = none →
      c.fork_id = none ∧ jsonLookup (ClientSpec.serialize c) "forkId" = none)
    ∧ (entries.lookup "forkId" = some (.str "abc") →
      c.fork_id = some "abc"
        ∧ jsonLookup (ClientSpec.serialize c) "forkId" = some (.str "abc")) := by
  obtain ⟨st, hdec, hbuild⟩ := deserialize_obj h
  obtain ⟨hfork, -⟩ := build_fields hbuild
  constructor
  · intro hlk
    have hpres : st.forkId = none := decodeFields_forkId_none hdec hlk
    have hnone : c.fork_id = none := by rw [hfork, hpres]; rfl
    exact ⟨hnone, by rw [serialize_forkId_lookup, hnone]; rfl⟩
  · intro hlk
    obtain ⟨o, ho, hsome⟩ := decodeFields_forkId_lookup hdec rfl hlk
    have hoval : (Except.ok (some "abc") : Except DecodeError (Option String)) = .ok o := by
      rw [← ho]; rfl
    cases hoval
    have habc : c.fork_id = some "abc" := by rw [hfork, hsome]; rfl
    exact ⟨habc, by rw [serialize_forkId_lookup, habc]; rfl⟩

/-- The entries of a minimal valid document: only the required fields
(`name`, `id`, `bootNodes`, `genesis`). -/
def minEntries : List (String × Json) :=
  [("name", .str "n"), ("id", .str "i"), ("bootNodes", .arr []),
   ("genesis", .obj [("raw", .obj [("top", .obj []), ("childrenDefault", .obj [])])])]

/-- The model value the minimal document decodes to. -/
def cMin : ClientSpec :=
  { name := "n", id := "i", chain_type := .Live, code_substitutes := []
    boot_nodes := [], telemetry_endpoints := none, protocol_id := none
    fork_id := none, properties := none, fork_blocks := none, bad_blocks := none
    genesis := .Raw ⟨[], []⟩, light_sync_state := none, parachain := none }

/-- The model value of the minimal document extended with
`"forkId": "abc"`. -/
def cAbc : ClientSpec :=
  { cMin with fork_id := some "abc" }

theorem clientSpec_forkId_spec_witness :
    (cMin.fork_id = none ∧ jsonLookup (ClientSpec.serialize cMin) "forkId" = none)
    ∧ (cAbc.fork_id = some "abc"
        ∧ jsonLookup (ClientSpec.serialize cAbc) "forkId" = some (.str "abc")) :=
  ⟨(clientSpec_forkId_spec minEntries cMin (by rfl)).1 (by rfl),
   (clientSpec_forkId_spec (minEntries ++ [("forkId", Json.str "abc")]) cAbc (by rfl)).2 (by rfl)⟩

/-- C8: for every otherwise-valid document that omits the `chainType`
field, whole-document decode succeeds with the default chain type `Live`;
no error is raised for the absence of this field. -/
theorem clientSpec_chainType_default (entries : List (String × Json)) (c : ClientSpec)
    (h : ClientSpec.deserialize (.obj entries) = .ok c)
    (hlk : entries.lookup "chainType" = none) : c.chain_type = .Live := by
  obtain ⟨st, hdec, hbuild⟩ := deserialize_obj h
  obtain ⟨-, hct⟩ := build_fields hbuild
  rw [hct, decodeFields_chainType_none hdec hlk]
  rfl

theorem clientSpec_chainType_default_witness :
    cMin.chain_type = .Live :=
  clientSpec_chainType_default minEntries cMin (by rfl) (by rfl)

/-- C1 (refuted — the code contradicts its `deny_unknown_fields`
annotation): a document containing every required field plus the
unrecognized field `"unknownKey": 1` decodes *successfully*, the unknown
key being silently dropped.  The flattened `parachain` field forces
`serde_derive` to route unknown keys into the flatten buffer instead of
rejecting them, so `deny_unknown_fields` on `ClientSpec` never fires and no
`UnknownFieldError` is produced. -/
theorem clientSpec_unknown_field_accepted :
    ClientSpec.deserialize (.obj (minEntries ++ [("unknownKey", .num 1)])) = .ok cMin := by
  rfl

/-! ## Claim C6 — the `Genesis` sum type -/

/-- C6: `Genesis` (GenesisState) decode accepts exactly the two recognized
shapes — a single-key object `{"raw": …}` with a decodable raw storage
payload, or a single-key object `{"stateRootHash": …}` with a decodable
32-byte hash string — and fails on any value matching zero of the shapes or
more than one (reported as the variant-dispatch error), or whose payload
(including any raw storage key/value) fails to decode. -/
theorem genesis_variant_dispatch :
    (∀ j : Json, (Genesis.deserialize j).isOk = true ↔
      ((∃ r, j = .obj [("raw", r)] ∧ (RawGenesis.deserialize r).isOk = true)
        ∨ (∃ s, j = .obj [("stateRootHash", s)] ∧ (HashHexString.deserialize s).isOk = true)))
    ∧ (∀ j : Json, (¬∃ r, j = .obj [("raw", r)]) → (¬∃ s, j = .obj [("stateRootHash", s)]) →
      Genesis.deserialize j = .error .ambiguousVariant) := by
  constructor
  · intro j
    match j with
    | .null | .bool _ | .num _ | .str _ | .arr _ =>
      simp [Genesis.deserialize, Except.isOk, Except.toBool]
    | .obj [] => simp [Genesis.deserialize, Except.isOk, Except.toBool]
    | .obj [(k, v)] =>
      by_cases hraw : k = "raw"
      · subst hraw
        rw [Genesis.deserialize, if_pos rfl, except_map_isOk]
        simp
      · by_cases hsrh : k = "stateRootHash"
        · subst hsrh
          rw [Genesis.deserialize, if_neg (by decide), if_pos rfl, except_map_isOk]
          simp
        · rw [Genesis.deserialize, if_neg hraw, if_neg hsrh]
          simp [hraw, hsrh, Except.isOk, Except.toBool]
    | .obj ((k₁, v₁) :: (k₂, v₂) :: rest) =>
      simp [Genesis.deserialize, Except.isOk, Except.toBool]
  · intro j hraw hsrh
    match j with
    | .null | .bool _ | .num _ | .str _ | .arr _ => rfl
    | .obj [] => rfl
    | .obj [(k, v)] =>
      rw [Genesis.deserialize,
        if_neg (fun he => hraw ⟨v, by rw [he]⟩),
        if_neg (fun he => hsrh ⟨v, by rw [he]⟩)]
    | .obj ((k₁, v₁) :: (k₂, v₂) :: rest) => rfl

theorem genesis_variant_dispatch_witness :
    (Genesis.deserialize
        (.obj [("raw", .obj [("top", .obj []), ("childrenDefault", .obj [])])])).isOk = true
    ∧ Genesis.deserialize (.obj [("raw", .null), ("stateRootHash", .null)]) =
        .error .ambiguousVariant
    ∧ Genesis.deserialize (.obj []) = .error .ambiguousVariant :=
  ⟨(genesis_variant_dispatch.1 _).mpr
      (.inl ⟨.obj [("top", .obj []), ("childrenDefault", .obj [])], rfl, by rfl⟩),
   genesis_variant_dispatch.2 _ (by rintro ⟨r, h⟩; simp at h) (by rintro ⟨s, h⟩; simp at h),
   genesis_variant_dispatch.2 _ (by rintro ⟨r, h⟩; simp at h) (by rintro ⟨s, h⟩; simp at h)⟩
